import Mathlib

/-!
Shallow embedding of the revision-chain engine of the `revisions` VS Code
extension (`src/extension.ts`, `src/configuration.ts`).

A store (`FileRevisions`) maps file names to a chain of one base content plus
an ordered list of patch revisions.  Reconstruction replays patches from the
base; retention trims by count and by age.  The patch codec
(`diff-match-patch`) is external to the repository and is modelled from the
spec's capability interface.
-/

namespace Revisions

/-- Modelled from the spec: the patch codec (the external `diff-match-patch`
library, excluded from the source and specified only at its interface:
produce a patch from two text contents, apply a patch to a content).  It is
modelled as an exact codec: a patch records the source and target contents,
and applying succeeds exactly on the content the patch was made from; a
failed application is the codec-failure case that reconstruction surfaces as
`CorruptChain`.  Serialization (`patch_toText` / `patch_fromText`) round-trips
and is modelled as the identity. -/
structure Patch where
  src : String
  tgt : String
deriving Repr, DecidableEq

/-- Modelled from the spec: `dmp.patch_make` over `diff_main`, as the
capability "produce a patch from two strings". -/
def patch_make (a b : String) : Patch := ⟨a, b⟩

/-- Modelled from the spec: `dmp.patch_apply`, as the capability "apply a
patch to a string", failing on content the patch was not made from. -/
def patch_apply (p : Patch) (c : String) : Option String :=
  if c = p.src then some p.tgt else none

/-- `interface Revision { diff: string; timestamp: number; name?: string }`.
The stored serialized patch is represented by the `Patch` it decodes to. -/
structure Revision where
  diff : Patch
  timestamp : Int
  name : Option String := none
deriving Repr, DecidableEq

/-- One entry of `FileRevisions`: `{ baseContent: string; revisions: Revision[] }`. -/
structure FileChain where
  baseContent : String
  revisions : List Revision
deriving Repr, DecidableEq

/-- `interface FileRevisions { [fileName: string]: {...} }`: the global store,
a finite map from file name to chain, represented as an association list with
unique keys (JS object keys are unique). -/
abbrev FileRevisions := List (String × FileChain)

/-- Reading `globalRevisions[fileName]`: first binding of the key, if any. -/
def lookupFile : FileRevisions → String → Option FileChain
  | [], _ => none
  | (g, ch) :: rest, f => if g = f then some ch else lookupFile rest f

/-- Writing `globalRevisions[fileName] = ch`: replace the existing binding or
add a new one. -/
def updateFile : FileRevisions → String → FileChain → FileRevisions
  | [], f, ch => [(f, ch)]
  | (g, c) :: rest, f, ch =>
    if g = f then (f, ch) :: rest else (g, c) :: updateFile rest f ch

/-- The one failure reconstruction can surface: in the source every failure
inside `getContentAtRevision` is a thrown exception caught by the caller's
`try`/`catch`; the spec names this condition `CorruptChain`. -/
inductive ChainError where
  | corruptChain
deriving Repr, DecidableEq

/-- A user-facing message shown via `vscode.window.showInformationMessage` /
`showErrorMessage`. -/
inductive UiMessage where
  | info (text : String)
  | error (text : String)
deriving Repr, DecidableEq

/-- `const MAX_FILE_SIZE = 1024 * 1024`. -/
def MAX_FILE_SIZE : Nat := 1024 * 1024

/-- The loop of `getContentAtRevision`: apply the first `count` stored patches
in order.  Running past the end of the list models the source reading
`revisions[i]` for `i >= length` (a thrown `TypeError`), and a patch that
fails to apply is a codec failure; both surface as `CorruptChain`. -/
def replayRevisions : String → List Revision → Nat → Except ChainError String
  | content, _, 0 => .ok content
  | _, [], _ + 1 => .error .corruptChain
  | content, r :: rest, n + 1 =>
    match patch_apply r.diff content with
    | some c => replayRevisions c rest n
    | none => .error .corruptChain

/-- `getContentAtRevision` on one chain: `revisionIndex < 0` returns
`baseContent`; otherwise the loop `for (i = 0; i <= revisionIndex; i++)`
applies the patches of `revisions[0..revisionIndex]` starting from
`baseContent`. -/
def getContentAtRevision (ch : FileChain) (revisionIndex : Int) :
    Except ChainError String :=
  if revisionIndex < 0 then .ok ch.baseContent
  else replayRevisions ch.baseContent ch.revisions (revisionIndex.toNat + 1)

/-- `getContentAtRevision(fileName, revisionIndex)` at store level: the source
reads `globalRevisions[fileName].baseContent`, which throws when the file has
no entry. -/
def getContentAtRevisionS (store : FileRevisions) (fileName : String)
    (revisionIndex : Int) : Except ChainError String :=
  match lookupFile store fileName with
  | some ch => getContentAtRevision ch revisionIndex
  | none => .error .corruptChain

/-- Sequential replay of a whole patch list, as the spec describes
reconstruction: each patch applied to the result of the previous step. -/
def replayList : String → List Revision → Except ChainError String
  | content, [] => .ok content
  | content, r :: rest =>
    match patch_apply r.diff content with
    | some c => replayList c rest
    | none => .error .corruptChain

/-- JS `arr.slice(-k)`: the last `k` elements; for `k = 0` it is `slice(0)`,
the whole array (`-0 === 0`). -/
def sliceLast (l : List Revision) (k : Nat) : List Revision :=
  if k = 0 then l else l.drop (l.length - k)

/-- `if (name) { revision.name = name; }`: the optional name is stored only
when it is a non-empty string. -/
def truthyName : Option String → Option String
  | some s => if s = "" then none else some s
  | none => none

/-- `createSnapshotForFile`, with the impure inputs made explicit:
`now = Date.now()`, `name` the optional label, `maxRevisions` from
`getMaxRevisionsPerFile()`.  Returns the new store and the error surfaced by
the `catch` handler, if any.  An oversized content returns early (only a
console warning); a missing entry seeds a fresh chain; otherwise a patch from
the last reconstructed content is appended and the list is sliced to the last
`maxRevisions` entries when it exceeds the cap. -/
def createSnapshotForFile (store : FileRevisions) (fileName content : String)
    (now : Int) (name : Option String) (maxRevisions : Nat) :
    FileRevisions × Option ChainError :=
  if MAX_FILE_SIZE < content.length then (store, none)
  else
    match lookupFile store fileName with
    | none => (updateFile store fileName ⟨content, []⟩, none)
    | some ch =>
      match getContentAtRevision ch ((ch.revisions.length : Int) - 1) with
      | .error e => (store, some e)
      | .ok lastContent =>
        let revision : Revision := ⟨patch_make lastContent content, now, truthyName name⟩
        let revs := ch.revisions ++ [revision]
        let revs2 := if maxRevisions < revs.length then sliceLast revs maxRevisions else revs
        (updateFile store fileName ⟨ch.baseContent, revs2⟩, none)

/-- The body of `trimRevisionsToMax` for one chain: slice the revision list to
the last `maxRevisions` entries when it exceeds the cap; `baseContent` is not
touched. -/
def trimChainToMax (ch : FileChain) (maxRevisions : Nat) : FileChain :=
  if maxRevisions < ch.revisions.length then
    ⟨ch.baseContent, sliceLast ch.revisions maxRevisions⟩
  else ch

/-- `trimRevisionsToMax`: apply the max-count trim to every chain of the
store. -/
def trimRevisionsToMax (store : FileRevisions) (maxRevisions : Nat) :
    FileRevisions :=
  store.map (fun p => (p.1, trimChainToMax p.2 maxRevisions))

/-- The revisions a chain keeps under the age cutoff:
`revisions.filter(revision => revision.timestamp > cutoffTime)`. -/
def keptRevisions (ch : FileChain) (cutoffTime : Int) : List Revision :=
  ch.revisions.filter (fun r => decide (cutoffTime < r.timestamp))

/-- The loop of `cleanupOldRevisions` over the store's entries: filter each
chain's revisions by the cutoff, accumulate the number removed
(`originalLength - revisions.length`), and delete the entry when no revision
remains. -/
def cleanupGo (cutoffTime : Int) : FileRevisions → FileRevisions × Nat
  | [] => ([], 0)
  | (f, ch) :: rest =>
    if (keptRevisions ch cutoffTime).length = 0 then
      ((cleanupGo cutoffTime rest).1,
       (ch.revisions.length - (keptRevisions ch cutoffTime).length) +
         (cleanupGo cutoffTime rest).2)
    else
      ((f, ⟨ch.baseContent, keptRevisions ch cutoffTime⟩) :: (cleanupGo cutoffTime rest).1,
       (ch.revisions.length - (keptRevisions ch cutoffTime).length) +
         (cleanupGo cutoffTime rest).2)

/-- `cutoffTime = Date.now() - (days * 24 * 60 * 60 * 1000)`. -/
def cutoffOf (days : Nat) (now : Int) : Int :=
  now - (days : Int) * 24 * 60 * 60 * 1000

/-- `cleanupOldRevisions(days)`, with `now = Date.now()` explicit: filters
every chain by the age cutoff, deletes entries left with no revisions, and
returns the new store together with the total number of revisions removed. -/
def cleanupOldRevisions (store : FileRevisions) (days : Nat) (now : Int) :
    FileRevisions × Nat :=
  cleanupGo (cutoffOf days now) store

/-- `name || undefined` in `renameRevision`: an empty string clears the
label. -/
def clearIfEmpty (name : String) : Option String :=
  if name = "" then none else some name

/-- Set the label of the revision at one position, leaving everything else
unchanged (`revisions[revisionIndex].name = name || undefined`). -/
def renameAt : List Revision → Nat → String → List Revision
  | [], _, _ => []
  | r :: rest, 0, name => ⟨r.diff, r.timestamp, clearIfEmpty name⟩ :: rest
  | r :: rest, n + 1, name => r :: renameAt rest n name

/-- Whether `globalRevisions[fileName] && globalRevisions[fileName].revisions[revisionIndex]`
holds: the file has a chain and the index names an existing revision. -/
def isValidRenameIndex (store : FileRevisions) (fileName : String)
    (revisionIndex : Int) : Bool :=
  match lookupFile store fileName with
  | none => false
  | some ch =>
    decide (0 ≤ revisionIndex) && decide (revisionIndex.toNat < ch.revisions.length)

/-- `renameRevision`: when the guarded index is valid, set the label and show
the success message; otherwise fall through silently (no mutation, no
message).  The second component is the message surfaced to the user, if
any. -/
def renameRevision (store : FileRevisions) (fileName : String)
    (revisionIndex : Int) (name : String) : FileRevisions × Option UiMessage :=
  match lookupFile store fileName with
  | none => (store, none)
  | some ch =>
    if 0 ≤ revisionIndex ∧ revisionIndex.toNat < ch.revisions.length then
      (updateFile store fileName ⟨ch.baseContent, renameAt ch.revisions revisionIndex.toNat name⟩,
       some (UiMessage.info "Revision renamed successfully"))
    else (store, none)

/-! ## Helper lemmas about replay -/

theorem replayRevisions_eq_replayList :
    ∀ (revs : List Revision) (c : String) (n : Nat), n ≤ revs.length →
      replayRevisions c revs n = replayList c (revs.take n)
  | revs, _, 0, _ => by cases revs <;> rfl
  | [], _, n + 1, h => absurd h (by simp)
  | r :: rest, c, n + 1, _h => by
      simp only [replayRevisions, List.take_succ_cons, replayList]
      cases hp : patch_apply r.diff c with
      | some c2 =>
        exact replayRevisions_eq_replayList rest c2 n (Nat.le_of_succ_le_succ _h)
      | none => rfl

theorem replayRevisions_oob :
    ∀ (revs : List Revision) (c : String) (n : Nat), revs.length < n →
      replayRevisions c revs n = .error .corruptChain
  | _, _, 0, h => absurd h (Nat.not_lt_zero _)
  | [], _, _ + 1, _ => rfl
  | r :: rest, c, n + 1, h => by
      simp only [replayRevisions]
      cases hp : patch_apply r.diff c with
      | some c2 => exact replayRevisions_oob rest c2 n (by simpa using h)
      | none => rfl

theorem replayRevisions_append :
    ∀ (l1 : List Revision) (c : String) (l2 : List Revision) (k : Nat),
      replayRevisions c (l1 ++ l2) (l1.length + k) =
        (match replayRevisions c l1 l1.length with
         | .ok d => replayRevisions d l2 k
         | .error e => .error e)
  | [], c, l2, k => by rw [List.length_nil, Nat.zero_add]; rfl
  | r :: rest, c, l2, k => by
      have h1 : (r :: rest).length + k = (rest.length + k) + 1 := by
        simp [Nat.add_right_comm]
      rw [h1]
      simp only [List.cons_append, replayRevisions, List.length_cons]
      cases hp : patch_apply r.diff c with
      | some c2 => exact replayRevisions_append rest c2 l2 k
      | none => rfl

theorem replayRevisions_congr_diff :
    ∀ (l l' : List Revision), l.map Revision.diff = l'.map Revision.diff →
      ∀ (c : String) (n : Nat), replayRevisions c l n = replayRevisions c l' n
  | [], [], _, _, _ => rfl
  | [], _ :: _, h, _, _ => absurd h (by simp)
  | _ :: _, [], h, _, _ => absurd h (by simp)
  | r :: rest, r' :: rest', h, c, n => by
      simp only [List.map_cons, List.cons.injEq] at h
      cases n with
      | zero => rfl
      | succ m =>
        simp only [replayRevisions, h.1]
        cases hp : patch_apply r'.diff c with
        | some c2 => exact replayRevisions_congr_diff rest rest' h.2 c2 m
        | none => rfl

theorem replayRevisions_fail_after :
    ∀ (revs : List Revision) (c0 : String) (j : Nat) (hj : j < revs.length)
      (d : String), replayRevisions c0 revs j = .ok d →
      patch_apply (revs.get ⟨j, hj⟩).diff d = none →
      ∀ n, j < n → replayRevisions c0 revs n = .error .corruptChain
  | [], _, j, hj, _, _, _, _, _ => absurd hj (Nat.not_lt_zero j)
  | r :: rest, c0, 0, _, d, hok, hfail, n, hn => by
      have hd : c0 = d := by simpa [replayRevisions] using hok
      subst hd
      cases n with
      | zero => exact absurd hn (Nat.not_lt_zero 0)
      | succ m =>
        have hf : patch_apply r.diff c0 = none := hfail
        simp only [replayRevisions]
        rw [hf]
  | r :: rest, c0, j + 1, hj, d, hok, hfail, n, hn => by
      simp only [replayRevisions] at hok
      cases hp : patch_apply r.diff c0 with
      | none => rw [hp] at hok; exact absurd hok (by simp)
      | some c1 =>
        rw [hp] at hok
        cases n with
        | zero => exact absurd hn (Nat.not_lt_zero _)
        | succ m =>
          simp only [replayRevisions, hp]
          exact replayRevisions_fail_after rest c1 j (Nat.lt_of_succ_lt_succ hj) d hok
            hfail m (Nat.lt_of_succ_lt_succ hn)

/-! ## Helper lemmas about the store -/

theorem lookupFile_updateFile_self :
    ∀ (s : FileRevisions) (f : String) (ch : FileChain),
      lookupFile (updateFile s f ch) f = some ch
  | [], f, ch => by simp [updateFile, lookupFile]
  | (g, c) :: rest, f, ch => by
      by_cases h : g = f
      · simp [updateFile, lookupFile, h]
      · simp [updateFile, lookupFile, h, lookupFile_updateFile_self rest f ch]

theorem updateFile_updateFile :
    ∀ (s : FileRevisions) (f : String) (a b : FileChain),
      updateFile (updateFile s f a) f b = updateFile s f b
  | [], f, a, b => by simp [updateFile]
  | (g, c) :: rest, f, a, b => by
      by_cases h : g = f
      · simp [updateFile, h]
      · simp [updateFile, h, updateFile_updateFile rest f a b]

theorem lookupFile_eq_none_of_not_mem :
    ∀ (s : FileRevisions) (f : String), f ∉ s.map Prod.fst →
      lookupFile s f = none
  | [], _, _ => rfl
  | (g, c) :: rest, f, h => by
      simp only [List.map_cons, List.mem_cons] at h
      push_neg at h
      have h1 : ¬ g = f := fun hh => h.1 hh.symm
      simp [lookupFile, h1, lookupFile_eq_none_of_not_mem rest f h.2]

/-! ## Helper lemmas about renameAt -/

theorem renameAt_length : ∀ (l : List Revision) (i : Nat) (nm : String),
    (renameAt l i nm).length = l.length
  | [], _, _ => rfl
  | _ :: _, 0, _ => rfl
  | r :: rest, i + 1, nm => by simp [renameAt, renameAt_length rest i nm]

theorem renameAt_map_diff : ∀ (l : List Revision) (i : Nat) (nm : String),
    (renameAt l i nm).map Revision.diff = l.map Revision.diff
  | [], _, _ => rfl
  | _ :: _, 0, _ => rfl
  | r :: rest, i + 1, nm => by simp [renameAt, renameAt_map_diff rest i nm]

theorem renameAt_get_diff : ∀ (l : List Revision) (i : Nat) (nm : String)
    (j : Nat) (hj : j < l.length) (hj' : j < (renameAt l i nm).length),
    ((renameAt l i nm).get ⟨j, hj'⟩).diff = (l.get ⟨j, hj⟩).diff
  | [], _, _, j, hj, _ => absurd hj (Nat.not_lt_zero j)
  | _ :: _, 0, _, 0, _, _ => rfl
  | _ :: _, 0, _, _ + 1, _, _ => rfl
  | _ :: _, _ + 1, _, 0, _, _ => rfl
  | _ :: rest, i + 1, nm, j + 1, hj, hj' =>
      renameAt_get_diff rest i nm j (Nat.lt_of_succ_lt_succ hj)
        (Nat.lt_of_succ_lt_succ hj')

theorem renameAt_get_timestamp : ∀ (l : List Revision) (i : Nat) (nm : String)
    (j : Nat) (hj : j < l.length) (hj' : j < (renameAt l i nm).length),
    ((renameAt l i nm).get ⟨j, hj'⟩).timestamp = (l.get ⟨j, hj⟩).timestamp
  | [], _, _, j, hj, _ => absurd hj (Nat.not_lt_zero j)
  | _ :: _, 0, _, 0, _, _ => rfl
  | _ :: _, 0, _, _ + 1, _, _ => rfl
  | _ :: _, _ + 1, _, 0, _, _ => rfl
  | _ :: rest, i + 1, nm, j + 1, hj, hj' =>
      renameAt_get_timestamp rest i nm j (Nat.lt_of_succ_lt_succ hj)
        (Nat.lt_of_succ_lt_succ hj')

theorem renameAt_get_name : ∀ (l : List Revision) (i : Nat) (nm : String)
    (hi' : i < (renameAt l i nm).length),
    ((renameAt l i nm).get ⟨i, hi'⟩).name = clearIfEmpty nm
  | [], i, _, hi' => absurd hi' (by simp [renameAt])
  | _ :: _, 0, _, _ => rfl
  | r :: rest, i + 1, nm, hi' =>
      renameAt_get_name rest i nm (Nat.lt_of_succ_lt_succ hi')

theorem renameAt_idem : ∀ (l : List Revision) (i : Nat) (nm : String),
    renameAt (renameAt l i nm) i nm = renameAt l i nm
  | [], _, _ => rfl
  | _ :: _, 0, _ => rfl
  | r :: rest, i + 1, nm => by simp [renameAt, renameAt_idem rest i nm]

/-! ## Helper lemmas about cleanup -/

theorem cleanupGo_lookup_none : ∀ (cut : Int) (s : FileRevisions) (f : String),
    lookupFile s f = none → lookupFile (cleanupGo cut s).1 f = none
  | _, [], _, _ => rfl
  | cut, (g, ch) :: rest, f, h => by
      by_cases hg : g = f
      · simp [lookupFile, hg] at h
      · simp only [lookupFile, hg, if_false] at h
        by_cases hk : (keptRevisions ch cut).length = 0
        · simp [cleanupGo, hk, cleanupGo_lookup_none cut rest f h]
        · simp [cleanupGo, hk, lookupFile, hg, cleanupGo_lookup_none cut rest f h]

theorem cleanupGo_lookup : ∀ (cut : Int) (s : FileRevisions),
    (s.map Prod.fst).Nodup →
    ∀ (f : String) (ch : FileChain), lookupFile s f = some ch →
      lookupFile (cleanupGo cut s).1 f =
        (if (keptRevisions ch cut).length = 0 then none
         else some ⟨ch.baseContent, keptRevisions ch cut⟩)
  | _, [], _, f, ch, h => by simp [lookupFile] at h
  | cut, (g, c) :: rest, hnd, f, ch, h => by
      simp only [List.map_cons, List.nodup_cons] at hnd
      by_cases hg : g = f
      · simp only [lookupFile, if_pos hg] at h
        have hc : c = ch := Option.some.inj h
        subst hc
        have hrest : lookupFile rest f = none :=
          lookupFile_eq_none_of_not_mem rest f (hg ▸ hnd.1)
        by_cases hk : (keptRevisions c cut).length = 0
        · simp [cleanupGo, hk, cleanupGo_lookup_none cut rest f hrest]
        · simp [cleanupGo, hk, lookupFile, hg]
      · simp only [lookupFile, hg, if_false] at h
        by_cases hk : (keptRevisions c cut).length = 0
        · simp only [cleanupGo, hk, if_pos rfl]
          exact cleanupGo_lookup cut rest hnd.2 f ch h
        · simp only [cleanupGo, hk, if_neg hk, lookupFile, hg, if_false]
          exact cleanupGo_lookup cut rest hnd.2 f ch h

theorem cleanupGo_count : ∀ (cut : Int) (s : FileRevisions),
    (cleanupGo cut s).2 =
      (s.map (fun p => p.2.revisions.length - (keptRevisions p.2 cut).length)).sum
  | _, [] => rfl
  | cut, (g, c) :: rest => by
      by_cases hk : (keptRevisions c cut).length = 0
      · simp [cleanupGo, hk, cleanupGo_count cut rest]
      · simp [cleanupGo, hk, cleanupGo_count cut rest]

theorem cleanupGo_mem_ne_nil : ∀ (cut : Int) (s : FileRevisions)
    (p : String × FileChain), p ∈ (cleanupGo cut s).1 → p.2.revisions ≠ []
  | _, [], p, hp => absurd hp (by simp [cleanupGo])
  | cut, (g, c) :: rest, p, hp => by
      by_cases hk : (keptRevisions c cut).length = 0
      · simp only [cleanupGo, hk, if_pos rfl] at hp
        exact cleanupGo_mem_ne_nil cut rest p hp
      · simp [cleanupGo, hk] at hp
        rcases hp with rfl | hm
        · intro hnil
          exact hk (by rw [show keptRevisions c cut = [] from hnil]; rfl)
        · exact cleanupGo_mem_ne_nil cut rest p hm

/-! ## Helper lemmas about snapshots -/

theorem createSnapshotForFile_oversized (store : FileRevisions)
    (fileName content : String) (now : Int) (nm : Option String)
    (maxRevisions : Nat) (h : MAX_FILE_SIZE < content.length) :
    createSnapshotForFile store fileName content now nm maxRevisions =
      (store, none) := by
  rw [createSnapshotForFile, if_pos h]

/-- A content one character longer than the size ceiling. -/
def oversizedContent : String := String.mk (List.replicate (MAX_FILE_SIZE + 1) 'a')

theorem oversizedContent_length : oversizedContent.length = MAX_FILE_SIZE + 1 := by
  show (List.replicate (MAX_FILE_SIZE + 1) 'a').length = MAX_FILE_SIZE + 1
  exact List.length_replicate _ _

theorem getContentAtRevision_last_replay (ch : FileChain) (lc : String)
    (h : getContentAtRevision ch ((ch.revisions.length : Int) - 1) = .ok lc) :
    replayRevisions ch.baseContent ch.revisions ch.revisions.length = .ok lc := by
  cases hrev : ch.revisions with
  | nil =>
      rw [hrev] at h
      have hb : ch.baseContent = lc := by
        rw [getContentAtRevision, if_pos (by simp)] at h
        exact Option.some.inj (by simpa using h)
      simp [replayRevisions, hb]
  | cons r rest =>
      rw [hrev] at h
      rw [getContentAtRevision,
        if_neg (by simp only [List.length_cons]; push_cast; omega)] at h
      have harith : ((((r :: rest).length : Nat) : Int) - 1).toNat + 1 =
          (r :: rest).length := by
        simp only [List.length_cons]; push_cast; omega
      rw [harith, hrev] at h
      exact h

/-! ## Claim theorems -/

/-- A two-revision chain: base "a", then patches "a"→"b" and "b"→"c". -/
def c1Chain : FileChain :=
  ⟨"a", [⟨patch_make "a" "b", 1, none⟩, ⟨patch_make "b" "c", 2, none⟩]⟩

/-- C1: the claim says max-count trimming recomputes the chain's base to the
content just before the first surviving revision, so that `reconstruct` of
every surviving index yields the same content as before trimming.  The code
does not: `trimRevisionsToMax` slices `revisions` to the last `maxCount`
entries and leaves `baseContent` untouched.  On the two-revision chain with
`maxCount = 1`, reconstruction yielded "c" at the last index before the trim,
but after the trim the surviving revision's patch no longer applies to the
stale base "a", so reconstruction of the surviving index fails instead of
yielding "c". -/
theorem C1_trim_does_not_rebase :
    getContentAtRevision c1Chain 1 = .ok "c"
    ∧ trimRevisionsToMax [("f", c1Chain)] 1 =
        [("f", ⟨"a", [⟨patch_make "b" "c", 2, none⟩]⟩)]
    ∧ (trimChainToMax c1Chain 1).baseContent = "a"
    ∧ (trimChainToMax c1Chain 1).revisions.length = 1
    ∧ getContentAtRevision (trimChainToMax c1Chain 1) 0 = .error .corruptChain :=
  ⟨rfl, rfl, rfl, rfl, rfl⟩

/-- C4: a snapshot whose content exceeds `MAX_FILE_SIZE` is skipped as a soft
guard: the store (hence every chain's base and revisions) is unmodified and
no error is surfaced. -/
theorem C4_size_guard (store : FileRevisions) (fileName content : String)
    (now : Int) (nm : Option String) (maxRevisions : Nat)
    (h : MAX_FILE_SIZE < content.length) :
    createSnapshotForFile store fileName content now nm maxRevisions =
      (store, none) :=
  createSnapshotForFile_oversized store fileName content now nm maxRevisions h

/-- Witness for C4 at a concrete oversized content. -/
theorem C4_size_guard_witness :
    createSnapshotForFile [] "f" oversizedContent 0 none 50 = ([], none) :=
  C4_size_guard [] "f" oversizedContent 0 none 50
    (by rw [oversizedContent_length]; exact Nat.lt_succ_self _)

/-- C5: age-based cleanup with `cutoffTime = now - days*86400000` keeps in
each chain exactly the revisions with `timestamp > cutoffTime` (deleting the
file's entry when none remains), and returns the total number of revisions
removed across all files. -/
theorem C5_cleanup (store : FileRevisions) (days : Nat) (now : Int)
    (hnd : (store.map Prod.fst).Nodup) :
    (∀ (f : String) (ch : FileChain), lookupFile store f = some ch →
        lookupFile (cleanupOldRevisions store days now).1 f =
          (if (keptRevisions ch (cutoffOf days now)).length = 0 then none
           else some ⟨ch.baseContent, keptRevisions ch (cutoffOf days now)⟩))
    ∧ (cleanupOldRevisions store days now).2 =
        (store.map (fun p =>
          p.2.revisions.length -
            (keptRevisions p.2 (cutoffOf days now)).length)).sum := by
  constructor
  · intro f ch h
    exact cleanupGo_lookup (cutoffOf days now) store hnd f ch h
  · exact cleanupGo_count (cutoffOf days now) store

/-- A two-file store for the cleanup witness. -/
def c5Store : FileRevisions :=
  [("a", ⟨"x", [⟨patch_make "x" "y", -5, none⟩, ⟨patch_make "y" "z", 100, none⟩]⟩),
   ("b", ⟨"w", [⟨patch_make "w" "v", 1, none⟩]⟩)]

/-- Witness for C5: the removed count on a concrete store. -/
theorem C5_cleanup_witness :
    (cleanupOldRevisions c5Store 0 50).2 =
      (c5Store.map (fun p =>
        p.2.revisions.length -
          (keptRevisions p.2 (cutoffOf 0 50)).length)).sum :=
  (C5_cleanup c5Store 0 50 (by decide)).2

/-- C6: reconstruction with a negative index returns the base verbatim, and
with an index in `[0, len-1]` it replays the patches of
`revisions[0..index]` in order, each applied to the result of the previous
step, starting from the base. -/
theorem C6_reconstruct (ch : FileChain) (idx : Int) :
    (idx < 0 → getContentAtRevision ch idx = .ok ch.baseContent)
    ∧ (0 ≤ idx → idx.toNat < ch.revisions.length →
        getContentAtRevision ch idx =
          replayList ch.baseContent (ch.revisions.take (idx.toNat + 1))) := by
  constructor
  · intro h; rw [getContentAtRevision, if_pos h]
  · intro h0 hlt
    rw [getContentAtRevision, if_neg (Int.not_lt.mpr h0)]
    exact replayRevisions_eq_replayList ch.revisions ch.baseContent
      (idx.toNat + 1) (by omega)

/-- The spec's scenario chain: base "hello", then two patches. -/
def c6Chain : FileChain :=
  ⟨"hello", [⟨patch_make "hello" "hello world", 1, none⟩,
             ⟨patch_make "hello world" "hello world!", 2, none⟩]⟩

/-- Witness for C6 at the scenario chain, at index -1 and index 1. -/
theorem C6_reconstruct_witness :
    getContentAtRevision c6Chain (-1) = .ok c6Chain.baseContent
    ∧ getContentAtRevision c6Chain 1 =
        replayList c6Chain.baseContent
          (c6Chain.revisions.take ((1 : Int).toNat + 1)) :=
  ⟨(C6_reconstruct c6Chain (-1)).1 (by decide),
   (C6_reconstruct c6Chain 1).2 (by decide) (by decide)⟩

/-- C10: after age-based cleanup every remaining chain has a non-empty
revision list; a chain whose revision list was already empty (base-only) is
deleted — its base content is no longer reachable — and such a chain
contributes 0 to the returned removed count. -/
theorem C10_cleanup_empty_chains (store : FileRevisions) (days : Nat)
    (now : Int) (hnd : (store.map Prod.fst).Nodup) :
    (∀ p : String × FileChain, p ∈ (cleanupOldRevisions store days now).1 →
        p.2.revisions ≠ [])
    ∧ (∀ (f : String) (ch : FileChain), lookupFile store f = some ch →
        ch.revisions = [] →
        lookupFile (cleanupOldRevisions store days now).1 f = none)
    ∧ (∀ (f b : String),
        (cleanupOldRevisions ((f, ⟨b, []⟩) :: store) days now).2 =
          (cleanupOldRevisions store days now).2) := by
  refine ⟨?_, ?_, ?_⟩
  · intro p hp
    exact cleanupGo_mem_ne_nil (cutoffOf days now) store p hp
  · intro f ch hl hnil
    have hres := cleanupGo_lookup (cutoffOf days now) store hnd f ch hl
    rw [show cleanupOldRevisions store days now =
      cleanupGo (cutoffOf days now) store from rfl, hres,
      if_pos (by simp [keptRevisions, hnil])]
  · intro f b
    simp [cleanupOldRevisions, cleanupGo, keptRevisions]

/-- Witness for C10: a base-only chain is deleted by cleanup. -/
theorem C10_cleanup_empty_chains_witness :
    lookupFile (cleanupOldRevisions [("a", ⟨"x", []⟩)] 0 100).1 "a" = none :=
  (C10_cleanup_empty_chains [("a", ⟨"x", []⟩)] 0 100 (by decide)).2.1
    "a" ⟨"x", []⟩ rfl rfl

/-- A store whose one chain already holds `maxRevisions = 1` revisions. -/
def c2Store : FileRevisions := [("f", ⟨"a", [⟨patch_make "a" "b", 1, none⟩]⟩)]

/-- C2 counterexample: the claim says that after a snapshot-append the
revision count increases by exactly 1 and reconstruction at the new last
index yields the appended content "regardless of prior chain length".  With
`maxRevisions = 1` and one prior revision, the in-snapshot trim slices the
list back to one entry (count unchanged, not +1) without rebasing, so no
chain with 2 revisions reconstructing to "c" results. -/
theorem C2_counterexample :
    ¬ ∃ ch : FileChain,
        lookupFile (createSnapshotForFile c2Store "f" "c" 2 none 1).1 "f" =
          some ch
        ∧ ch.revisions.length = 1 + 1
        ∧ getContentAtRevision ch ((ch.revisions.length : Int) - 1) =
            .ok "c" := by
  rintro ⟨ch, h1, h2, h3⟩
  have he : lookupFile (createSnapshotForFile c2Store "f" "c" 2 none 1).1 "f" =
      some ⟨"a", [⟨patch_make "b" "c", 2, none⟩]⟩ := rfl
  rw [he] at h1
  cases Option.some.inj h1
  simp at h2

/-- C2 (amended): for every chain with an existing entry whose revision count
is strictly below `maxRevisions`, and content within the size ceiling, if
reconstruction of the current last index succeeds then the snapshot appends
exactly one revision (the patch from the last reconstructed content to the
new content) and reconstruction at the new last index yields the appended
content. -/
theorem C2_append_increases (store : FileRevisions) (f content : String)
    (now : Int) (nm : Option String) (maxRevisions : Nat) (ch : FileChain)
    (lc : String)
    (hlook : lookupFile store f = some ch)
    (hsize : content.length ≤ MAX_FILE_SIZE)
    (hlt : ch.revisions.length < maxRevisions)
    (hrec : getContentAtRevision ch ((ch.revisions.length : Int) - 1) = .ok lc) :
    (createSnapshotForFile store f content now nm maxRevisions).2 = none
    ∧ lookupFile (createSnapshotForFile store f content now nm maxRevisions).1 f =
        some (⟨ch.baseContent,
              ch.revisions ++ [⟨patch_make lc content, now, truthyName nm⟩]⟩ : FileChain)
    ∧ (ch.revisions ++ [(⟨patch_make lc content, now, truthyName nm⟩ : Revision)]).length =
        ch.revisions.length + 1
    ∧ getContentAtRevision
        ⟨ch.baseContent, ch.revisions ++ [⟨patch_make lc content, now, truthyName nm⟩]⟩
        (ch.revisions.length : Int) = .ok content := by
  have hguard : ¬ MAX_FILE_SIZE < content.length := Nat.not_lt.mpr hsize
  have hnotrim : ¬ maxRevisions <
      (ch.revisions ++ [(⟨patch_make lc content, now, truthyName nm⟩ : Revision)]).length := by
    simp only [List.length_append, List.length_cons, List.length_nil]
    omega
  have hsnap : createSnapshotForFile store f content now nm maxRevisions =
      (updateFile store f
        ⟨ch.baseContent, ch.revisions ++ [⟨patch_make lc content, now, truthyName nm⟩]⟩,
       none) := by
    rw [createSnapshotForFile, if_neg hguard]
    simp only [hlook, hrec, if_neg hnotrim]
  have hreplay : replayRevisions ch.baseContent ch.revisions ch.revisions.length =
      .ok lc := getContentAtRevision_last_replay ch lc hrec
  refine ⟨by rw [hsnap], by rw [hsnap]; exact lookupFile_updateFile_self _ _ _,
    by simp, ?_⟩
  have happ := replayRevisions_append ch.revisions ch.baseContent
    [⟨patch_make lc content, now, truthyName nm⟩] 1
  simp only [hreplay] at happ
  have h1 : replayRevisions lc [⟨patch_make lc content, now, truthyName nm⟩] 1 =
      .ok content := by
    simp [replayRevisions, patch_apply, patch_make]
  rw [h1] at happ
  rw [getContentAtRevision, if_neg (by omega)]
  show replayRevisions ch.baseContent
    (ch.revisions ++ [⟨patch_make lc content, now, truthyName nm⟩])
    ((ch.revisions.length : Int).toNat + 1) = .ok content
  rw [Int.toNat_natCast]
  exact happ

/-- A fresh one-file store below the cap, for the C2 witness. -/
def c2WitnessStore : FileRevisions := [("f", ⟨"a", []⟩)]

/-- Witness for C2 (amended) at a concrete store below the cap. -/
theorem C2_append_increases_witness :
    (createSnapshotForFile c2WitnessStore "f" "b" 1 none 5).2 = none
    ∧ lookupFile (createSnapshotForFile c2WitnessStore "f" "b" 1 none 5).1 "f" =
        some (⟨"a", [] ++ [⟨patch_make "a" "b", 1, truthyName none⟩]⟩ : FileChain)
    ∧ (([] : List Revision) ++ [(⟨patch_make "a" "b", 1, truthyName none⟩ : Revision)]).length =
        0 + 1
    ∧ getContentAtRevision
        ⟨"a", [] ++ [⟨patch_make "a" "b", 1, truthyName none⟩]⟩
        ((0 : Nat) : Int) = .ok "b" :=
  C2_append_increases c2WitnessStore "f" "b" 1 none 5 ⟨"a", []⟩ "a" rfl
    (by decide) (by decide) rfl

/-- C3: for a nonnegative requested index, reconstruction fails with
`CorruptChain` when the index is at or past the end of the revision list, and
when any intermediate stored patch reached by the replay fails to apply; the
result depends only on that file's chain, so the failure is surfaced for that
file's operation only. -/
theorem C3_reconstruct_corrupt (store : FileRevisions) (f : String)
    (ch : FileChain) (idx : Int)
    (hlook : lookupFile store f = some ch) (hidx : 0 ≤ idx) :
    ((ch.revisions.length : Int) ≤ idx →
        getContentAtRevisionS store f idx = .error .corruptChain)
    ∧ (∀ (j : Nat) (hj : j < ch.revisions.length) (c : String),
        (j : Int) ≤ idx →
        replayRevisions ch.baseContent ch.revisions j = .ok c →
        patch_apply (ch.revisions.get ⟨j, hj⟩).diff c = none →
        getContentAtRevisionS store f idx = .error .corruptChain)
    ∧ (∀ store' : FileRevisions, lookupFile store' f = some ch →
        getContentAtRevisionS store' f idx = getContentAtRevisionS store f idx) := by
  have hS : getContentAtRevisionS store f idx = getContentAtRevision ch idx := by
    simp [getContentAtRevisionS, hlook]
  have hnneg : ¬ idx < 0 := Int.not_lt.mpr hidx
  refine ⟨?_, ?_, ?_⟩
  · intro hle
    rw [hS, getContentAtRevision, if_neg hnneg]
    exact replayRevisions_oob ch.revisions ch.baseContent (idx.toNat + 1) (by omega)
  · intro j hj c hjle hrep hfail
    rw [hS, getContentAtRevision, if_neg hnneg]
    exact replayRevisions_fail_after ch.revisions ch.baseContent j hj c hrep hfail
      (idx.toNat + 1) (by omega)
  · intro store' hlook'
    rw [hS]
    simp [getContentAtRevisionS, hlook']

/-- A one-revision chain for the C3 witness. -/
def c3Chain : FileChain := ⟨"a", [⟨patch_make "a" "b", 1, none⟩]⟩

/-- Witness for C3: an index past the end fails with `CorruptChain`. -/
theorem C3_reconstruct_corrupt_witness :
    getContentAtRevisionS [("f", c3Chain)] "f" 5 = .error .corruptChain :=
  (C3_reconstruct_corrupt [("f", c3Chain)] "f" c3Chain 5 rfl (by decide)).1
    (by decide)

/-- C7 counterexample: the claim says a snapshot for a file with no existing
chain always creates a chain seeded with the observed content; but the size
guard runs before the creation path, so an oversized first snapshot creates
no chain at all. -/
theorem C7_counterexample :
    MAX_FILE_SIZE < oversizedContent.length
    ∧ lookupFile [] "f" = none
    ∧ lookupFile (createSnapshotForFile [] "f" oversizedContent 0 none 50).1 "f" =
        none := by
  have h : MAX_FILE_SIZE < oversizedContent.length := by
    rw [oversizedContent_length]; exact Nat.lt_succ_self _
  refine ⟨h, rfl, ?_⟩
  rw [createSnapshotForFile_oversized [] "f" oversizedContent 0 none 50 h]
  rfl

/-- C7 (amended): for content within the size ceiling, a snapshot for a file
with no existing chain never fails and seeds a chain with
`baseContent = content` and no revisions; and when a chain already exists the
creation path is not taken — whatever the snapshot does, the existing chain's
base is preserved (the snapshot appends instead of re-seeding). -/
theorem C7_create_or_get (store : FileRevisions) (f content : String)
    (now : Int) (nm : Option String) (maxRevisions : Nat)
    (hsize : content.length ≤ MAX_FILE_SIZE) :
    (lookupFile store f = none →
        createSnapshotForFile store f content now nm maxRevisions =
          (updateFile store f ⟨content, []⟩, none)
        ∧ lookupFile (createSnapshotForFile store f content now nm maxRevisions).1 f =
            some ⟨content, []⟩)
    ∧ (∀ ch ch' : FileChain, lookupFile store f = some ch →
        lookupFile (createSnapshotForFile store f content now nm maxRevisions).1 f =
          some ch' →
        ch'.baseContent = ch.baseContent) := by
  have hguard : ¬ MAX_FILE_SIZE < content.length := Nat.not_lt.mpr hsize
  constructor
  · intro habs
    have heq : createSnapshotForFile store f content now nm maxRevisions =
        (updateFile store f ⟨content, []⟩, none) := by
      rw [createSnapshotForFile, if_neg hguard, habs]
    exact ⟨heq, by rw [heq]; exact lookupFile_updateFile_self store f ⟨content, []⟩⟩
  · intro ch ch' hc hc'
    rw [createSnapshotForFile, if_neg hguard] at hc'
    simp only [hc] at hc'
    cases hrec : getContentAtRevision ch ((ch.revisions.length : Int) - 1) with
    | error e =>
        simp only [hrec] at hc'
        rw [hc] at hc'
        cases Option.some.inj hc'
        rfl
    | ok lc =>
        simp only [hrec] at hc'
        rw [lookupFile_updateFile_self] at hc'
        cases Option.some.inj hc'
        rfl

/-- Witness for C7: a first snapshot on an empty store seeds the chain. -/
theorem C7_create_or_get_witness :
    createSnapshotForFile [] "f" "hello" 0 none 50 =
      (updateFile [] "f" ⟨"hello", []⟩, none)
    ∧ lookupFile (createSnapshotForFile [] "f" "hello" 0 none 50).1 "f" =
        some ⟨"hello", []⟩ :=
  (C7_create_or_get [] "f" "hello" 0 none 50 (by decide)).1 rfl

/-- C8: renaming a valid index sets the label (`""` clears it), shows only
the success message, and changes nothing else: every revision's patch and
timestamp, the chain's base, and reconstruction at every index are unchanged,
and renaming twice with the same label equals renaming once. -/
theorem C8_rename (store : FileRevisions) (f : String) (ch : FileChain)
    (idx : Int) (nm : String)
    (hlook : lookupFile store f = some ch)
    (h0 : 0 ≤ idx) (hlt : idx.toNat < ch.revisions.length) :
    renameRevision store f idx nm =
      (updateFile store f ⟨ch.baseContent, renameAt ch.revisions idx.toNat nm⟩,
       some (UiMessage.info "Revision renamed successfully"))
    ∧ lookupFile (renameRevision store f idx nm).1 f =
        some ⟨ch.baseContent, renameAt ch.revisions idx.toNat nm⟩
    ∧ (renameAt ch.revisions idx.toNat nm).length = ch.revisions.length
    ∧ (∀ (j : Nat) (hj : j < ch.revisions.length)
        (hj' : j < (renameAt ch.revisions idx.toNat nm).length),
        ((renameAt ch.revisions idx.toNat nm).get ⟨j, hj'⟩).diff =
            (ch.revisions.get ⟨j, hj⟩).diff
        ∧ ((renameAt ch.revisions idx.toNat nm).get ⟨j, hj'⟩).timestamp =
            (ch.revisions.get ⟨j, hj⟩).timestamp)
    ∧ (∀ hi : idx.toNat < (renameAt ch.revisions idx.toNat nm).length,
        ((renameAt ch.revisions idx.toNat nm).get ⟨idx.toNat, hi⟩).name =
          clearIfEmpty nm)
    ∧ (∀ k : Int,
        getContentAtRevision ⟨ch.baseContent, renameAt ch.revisions idx.toNat nm⟩ k =
          getContentAtRevision ch k)
    ∧ renameRevision (renameRevision store f idx nm).1 f idx nm =
        renameRevision store f idx nm := by
  have hcond : 0 ≤ idx ∧ idx.toNat < ch.revisions.length := ⟨h0, hlt⟩
  have hmain : renameRevision store f idx nm =
      (updateFile store f ⟨ch.baseContent, renameAt ch.revisions idx.toNat nm⟩,
       some (UiMessage.info "Revision renamed successfully")) := by
    rw [renameRevision]
    simp only [hlook]
    rw [if_pos hcond]
  refine ⟨hmain, by rw [hmain]; exact lookupFile_updateFile_self _ _ _,
    renameAt_length _ _ _, ?_, ?_, ?_, ?_⟩
  · intro j hj hj'
    exact ⟨renameAt_get_diff ch.revisions idx.toNat nm j hj hj',
      renameAt_get_timestamp ch.revisions idx.toNat nm j hj hj'⟩
  · intro hi
    exact renameAt_get_name ch.revisions idx.toNat nm hi
  · intro k
    by_cases hk : k < 0
    · simp [getContentAtRevision, hk]
    · simp only [getContentAtRevision, if_neg hk]
      exact replayRevisions_congr_diff _ _
        (renameAt_map_diff ch.revisions idx.toNat nm) ch.baseContent (k.toNat + 1)
  · rw [hmain]
    have hlook2 : lookupFile
        (updateFile store f ⟨ch.baseContent, renameAt ch.revisions idx.toNat nm⟩) f =
        some ⟨ch.baseContent, renameAt ch.revisions idx.toNat nm⟩ :=
      lookupFile_updateFile_self _ _ _
    rw [renameRevision]
    simp only [hlook2]
    rw [if_pos ⟨h0, by rw [renameAt_length]; exact hlt⟩]
    rw [renameAt_idem, updateFile_updateFile]

/-- A one-revision store for the C8 witness. -/
def c8Store : FileRevisions := [("f", ⟨"a", [⟨patch_make "a" "b", 1, none⟩]⟩)]

/-- Witness for C8 at a concrete store and label. -/
theorem C8_rename_witness :
    renameRevision c8Store "f" 0 "v1" =
      (updateFile c8Store "f"
        ⟨"a", renameAt [⟨patch_make "a" "b", 1, none⟩] (Int.toNat 0) "v1"⟩,
       some (UiMessage.info "Revision renamed successfully")) :=
  (C8_rename c8Store "f" ⟨"a", [⟨patch_make "a" "b", 1, none⟩]⟩ 0 "v1" rfl
    (by decide) (by decide)).1

/-- A store whose chain has no revisions, so index 0 is invalid. -/
def c9Store : FileRevisions := [("f", ⟨"a", []⟩)]

/-- C9 counterexample: the claim says a rename against a nonexistent index
fails with `IndexOutOfRange` surfaced as a local error; in the code the
guarded branch simply falls through, so the operation is a no-op and no
message of any kind — in particular no error — is surfaced (the second
component is `none`). -/
theorem C9_counterexample :
    renameRevision c9Store "f" 0 "x" = (c9Store, none) := rfl

/-- C9 (amended): a rename against a nonexistent revision index (no chain for
the file, or an index not naming an existing revision) is a silent no-op: the
store is unchanged and no message is surfaced. -/
theorem C9_invalid_rename_silent (store : FileRevisions) (f : String)
    (idx : Int) (nm : String) (h : isValidRenameIndex store f idx = false) :
    renameRevision store f idx nm = (store, none) := by
  rw [renameRevision]
  cases hl : lookupFile store f with
  | none => rfl
  | some ch =>
    by_cases hc : 0 ≤ idx ∧ idx.toNat < ch.revisions.length
    · exfalso
      have htrue : isValidRenameIndex store f idx = true := by
        simp [isValidRenameIndex, hl, hc.1, hc.2]
      exact absurd (htrue.symm.trans h) (by decide)
    · simp [hc]

/-- Witness for C9 (amended): a rename on an absent file is a silent no-op. -/
theorem C9_invalid_rename_silent_witness :
    renameRevision [] "g" 3 "x" = ([], none) :=
  C9_invalid_rename_silent [] "g" 3 "x" rfl

end Revisions
